import Mathlib

/-!
Shallow embedding of the schema-migration engine of the trading_journal_macos
repository (src/src-tauri/src/db/migration_runner.rs, src/src-tauri/src/db/connection.rs,
src/src-tauri/src/lib.rs), together with theorems settling the frozen claims
about it.

The database engine (SQLite via rusqlite) is modelled structurally: a schema is
a list of tables with their column names, the tracking table's rows are a list
of records, and the one transactional construct used by the code
(`unchecked_transaction` + `commit`, rollback on drop) is modelled by state
passing: a failed transaction leaves the connection state exactly as it was.
Filesystem effects of the backup manager are modelled by an explicit `Fs`
state with fault-injection flags for each fallible operation the code performs.
-/

namespace TradingJournal

/-- Errors surfaced by the migration engine, mirroring the `rusqlite::Error`
values the source constructs or propagates: `InvalidQuery` (checksum mismatch),
`InvalidPath` (database file has no parent directory), wrapped
`SqliteFailure` values (backup-manager failures), and engine-level SQL
execution errors (bad script, constraint violation). -/
inductive DbError where
  | invalidQuery
  | invalidPath
  | sqliteFailure
  | sqlExec
deriving DecidableEq

/-- The migration scripts of the compiled registry
(src-tauri/src/db/migrations/NNN_*.sql, pulled in with include_str! by
`collect_migrations`), plus an always-failing script used to exercise the
error paths (the source's tests use "INVALID SQL SYNTAX" the same way). -/
inductive Sql where
  | bootstrap
  | initialSchema
  | addPlannedAndEffectiveEntries
  | addImportSource
  | addAutoSyncColumns
  | addLiveMirrorColumn
  | addSoftDelete
  | addExecutionCalculations
  | invalid
deriving DecidableEq

/-- Modelled from the spec: the checksum is "a deterministic cryptographic
digest of `sql`" (SHA-256 of the script bytes in `Migration::checksum`).
The script files themselves are not among the sources, so the digests of the
distinct scripts are abstracted as distinct literal strings; all the code ever
does with a digest is store it and compare it for equality. -/
def sqlSha256 : Sql → String
  | .bootstrap => "sha256:000_bootstrap"
  | .initialSchema => "sha256:001_initial_schema"
  | .addPlannedAndEffectiveEntries => "sha256:002_add_planned_and_effective_entries"
  | .addImportSource => "sha256:003_add_import_source"
  | .addAutoSyncColumns => "sha256:004_add_auto_sync_columns"
  | .addLiveMirrorColumn => "sha256:005_add_live_mirror_column"
  | .addSoftDelete => "sha256:006_add_soft_delete"
  | .addExecutionCalculations => "sha256:007_add_execution_calculations"
  | .invalid => "sha256:invalid"

/-- `struct Migration { version: u32, name: &'static str, sql: &'static str }`. -/
structure Migration where
  version : Nat
  name : String
  sql : Sql
deriving DecidableEq

/-- `Migration::checksum`: SHA-256 digest of the script text. -/
def Migration.checksum (m : Migration) : String := sqlSha256 m.sql

/-- `Migration::new`. -/
def Migration.mkNew (version : Nat) (name : String) (sql : Sql) : Migration :=
  ⟨version, name, sql⟩

/-- `MigrationRunner::collect_migrations`: the compiled-in registry. -/
def collect_migrations : List Migration :=
  [ Migration.mkNew 0 "bootstrap" .bootstrap,
    Migration.mkNew 1 "initial_schema" .initialSchema,
    Migration.mkNew 2 "add_planned_and_effective_entries" .addPlannedAndEffectiveEntries,
    Migration.mkNew 3 "add_import_source" .addImportSource,
    Migration.mkNew 4 "add_auto_sync_columns" .addAutoSyncColumns,
    Migration.mkNew 5 "add_live_mirror_column" .addLiveMirrorColumn,
    Migration.mkNew 6 "add_soft_delete" .addSoftDelete,
    Migration.mkNew 7 "add_execution_calculations" .addExecutionCalculations ]

/-- A SQLite schema, modelled structurally as the list of tables with their
column names — exactly the information the engine's introspection queries
(`sqlite_master`, `pragma_table_info`) observe. -/
structure Schema where
  tables : List (String × List String)
deriving DecidableEq

/-- `SELECT COUNT(*) FROM sqlite_master WHERE type='table' AND name=?` > 0. -/
def Schema.hasTable (s : Schema) (t : String) : Bool :=
  s.tables.any (fun p => p.1 == t)

/-- `SELECT COUNT(*) FROM pragma_table_info(?) WHERE name=?` > 0. -/
def Schema.columnHolds (s : Schema) (t c : String) : Bool :=
  s.tables.any (fun p => p.1 == t && p.2.any (fun c2 => c2 == c))

/-- `CREATE TABLE t (...)`: fails if the table already exists. -/
def Schema.createTable (s : Schema) (t : String) (cols : List String) :
    Except DbError Schema :=
  if s.hasTable t then .error .sqlExec
  else .ok ⟨s.tables ++ [(t, cols)]⟩

/-- `CREATE TABLE IF NOT EXISTS t (...)`. -/
def Schema.createTableIfAbsent (s : Schema) (t : String) (cols : List String) :
    Except DbError Schema :=
  if s.hasTable t then .ok s
  else .ok ⟨s.tables ++ [(t, cols)]⟩

/-- `ALTER TABLE t ADD COLUMN c`: fails if the table is missing or the column
already exists. -/
def Schema.addColumn (s : Schema) (t c : String) : Except DbError Schema :=
  if ¬ s.hasTable t then .error .sqlExec
  else if s.columnHolds t c then .error .sqlExec
  else .ok ⟨s.tables.map (fun p => if p.1 == t then (p.1, p.2 ++ [c]) else p)⟩

/-- Columns of the tracking table, per `000_bootstrap.sql` / spec §6. -/
def schemaMigrationsCols : List String :=
  ["version", "name", "applied_at", "checksum", "execution_time_ms", "notes"]

/-- Modelled from the spec: the registry's script files
(src-tauri/src/db/migrations/000..007) are not among the sources. Their
structural effects are reconstructed from the spec (§2, §4.2) and from the
structural markers `detect_legacy_version` probes for: 000 creates the
tracking table; 001 creates the base trade-journal tables; each later script
adds its marker column(s) to an existing table. `conn.execute_batch` of a
script applies these effects, failing as SQLite would on a bad script. -/
def execBatch (sql : Sql) (s : Schema) : Except DbError Schema :=
  match sql with
  | .bootstrap => s.createTable "schema_migrations" schemaMigrationsCols
  | .initialSchema => do
      let s ← s.createTable "settings" ["id"]
      let s ← s.createTable "trades" ["id", "symbol"]
      let s ← s.createTable "api_credentials" ["id", "exchange"]
      s.createTable "api_sync_history" ["id"]
  | .addPlannedAndEffectiveEntries => do
      let s ← s.addColumn "trades" "planned_entries"
      s.addColumn "trades" "effective_entries"
  | .addImportSource => s.addColumn "trades" "import_source"
  | .addAutoSyncColumns => s.addColumn "api_credentials" "auto_sync_enabled"
  | .addLiveMirrorColumn => s.addColumn "api_credentials" "live_mirror_enabled"
  | .addSoftDelete => s.addColumn "trades" "deleted_at"
  | .addExecutionCalculations => s.addColumn "trades" "execution_portfolio"
  | .invalid => .error .sqlExec

/-- One row of `schema_migrations` (spec: SchemaVersionRecord). -/
structure SchemaVersionRecord where
  version : Nat
  name : String
  applied_at : Nat
  checksum : Option String
  execution_time_ms : Nat
  notes : Option String
deriving DecidableEq

/-- The observable state of one open database connection: the live schema,
the rows of the tracking table, and the two pragma-level observables the
engine reads (`integrity_check` outcome and `foreign_keys`). -/
structure DbState where
  schema : Schema
  schemaMigrations : List SchemaVersionRecord
  integrityOk : Bool
  fkEnabled : Bool
deriving DecidableEq

/-- The environment clock (`current_timestamp`, epoch seconds), modelled as a
fixed instant: no claim depends on the clock value itself. -/
def current_timestamp : Nat := 1739999999

/-- An `INSERT INTO schema_migrations ... VALUES (...)`: fails if the tracking
table does not exist or on the UNIQUE constraint of `version`
(spec §6: "version (unique, monotonically increasing)"). -/
def DbState.insertRecord (db : DbState) (r : SchemaVersionRecord) :
    Except DbError DbState :=
  if ¬ db.schema.hasTable "schema_migrations" then .error .sqlExec
  else if db.schemaMigrations.any (fun r2 => r2.version == r.version) then .error .sqlExec
  else .ok { db with schemaMigrations := db.schemaMigrations ++ [r] }

/-- Whether the tracking table holds a row for a given version. -/
def DbState.hasRecord (db : DbState) (v : Nat) : Bool :=
  db.schemaMigrations.any (fun r => r.version == v)

/-- `SELECT MAX(version) FROM schema_migrations`: NULL on an empty table. -/
def sqlMax : List Nat → Option Nat
  | [] => none
  | x :: xs =>
    match sqlMax xs with
    | none => some x
    | some m => some (Nat.max x m)

/-- A file in the backup directory, with the attributes the backup manager
reads: name, size (`fs::metadata(..).len()`), modification time, and whether
`PRAGMA integrity_check` on it answers "ok". -/
structure BackupFile where
  name : String
  size : Nat
  mtime : Nat
  integrityOk : Bool
deriving DecidableEq

/-- The filesystem as the backup manager sees it. `dbDir` is the parent
directory of the database file (`Path::parent`, `none` when there is none);
the `..Ok` flags inject faults into each fallible operation the code performs
(`fs::create_dir_all`, the rusqlite hot-backup copy, `fs::read_dir`);
`snapshotSize` and `snapshotIntegrityOk` are the attributes a freshly copied
snapshot file would have. -/
structure Fs where
  dbDir : Option String
  mkdirOk : Bool
  copyOk : Bool
  snapshotSize : Nat
  snapshotIntegrityOk : Bool
  readDirOk : Bool
  backupFiles : List BackupFile
deriving DecidableEq

/-- String prefix test over the underlying character lists (the kernel-level
model of Rust's `str::starts_with`). -/
def strStartsWith (s p : String) : Bool :=
  s.data.take p.data.length == p.data

/-- String suffix test over the underlying character lists (the kernel-level
model of the `.db`-extension check). -/
def strEndsWith (s p : String) : Bool :=
  s.data.drop (s.data.length - p.data.length) == p.data

/-- The filter of `cleanup_old_backups`: extension "db" and file name starting
with "pre_migration_". -/
def isBackupPattern (f : BackupFile) : Bool :=
  strStartsWith f.name "pre_migration_" && strEndsWith f.name ".db"

/-- The sort key of `cleanup_old_backups` (`sort_by_key` on modification
time; Rust's sort is stable, modelled by stable insertion sort). -/
def mtimeLe (a b : BackupFile) : Prop := a.mtime ≤ b.mtime

instance : DecidableRel mtimeLe := fun a b => Nat.decLe a.mtime b.mtime

instance : IsTotal BackupFile mtimeLe := ⟨fun a b => Nat.le_total a.mtime b.mtime⟩

instance : IsTrans BackupFile mtimeLe := ⟨fun _ _ _ h1 h2 => Nat.le_trans h1 h2⟩

/-- `MigrationRunner::cleanup_old_backups`: list the directory (fallible),
filter to the snapshot naming pattern, sort by modification time ascending,
delete all but the last 5 (`fs::remove_file` modelled as succeeding). -/
def cleanup_old_backups (fs : Fs) : Except DbError Unit × Fs :=
  if ¬ fs.readDirOk then (.error .sqliteFailure, fs)
  else
    let backups := fs.backupFiles.filter isBackupPattern
    let sorted := backups.insertionSort mtimeLe
    let keep := sorted.drop (sorted.length - 5)
    (.ok (),
      { fs with backupFiles := fs.backupFiles.filter (fun f => ! isBackupPattern f) ++ keep })

/-- The snapshot file name `pre_migration_v<target_version>_<unix_timestamp>.db`. -/
def backupFileName (target_version : Nat) : String :=
  "pre_migration_v" ++ toString target_version ++ "_" ++ toString current_timestamp ++ ".db"

/-- `struct MigrationRunner { migrations: Vec<Migration> }`. -/
structure MigrationRunner where
  migrations : List Migration
deriving DecidableEq

/-- `MigrationRunner::new`. -/
def MigrationRunner.mkNew : MigrationRunner := ⟨collect_migrations⟩

def MigrationRunner.has_schema_migrations_table (_ : MigrationRunner) (db : DbState) : Bool :=
  db.schema.hasTable "schema_migrations"

def MigrationRunner.has_trades_table (_ : MigrationRunner) (db : DbState) : Bool :=
  db.schema.hasTable "trades"

def MigrationRunner.column_holds (_ : MigrationRunner) (db : DbState) (t c : String) : Bool :=
  db.schema.columnHolds t c

/-- `MigrationRunner::get_current_version`: `None` when the tracking table is
absent, else `SELECT MAX(version)` (NULL — `none` — on an empty table). -/
def MigrationRunner.get_current_version (self : MigrationRunner) (db : DbState) : Option Nat :=
  if ¬ self.has_schema_migrations_table db then none
  else sqlMax (db.schemaMigrations.map (fun r => r.version))

/-- `MigrationRunner::apply_migration`: one transaction executing the script
and inserting the version record, committed at the end. On any failure the
transaction is dropped uncommitted and SQLite rolls back: the connection
state stays exactly the input state. Returns the Rust `Result<()>` together
with the connection state after the call. -/
def MigrationRunner.apply_migration (_ : MigrationRunner) (m : Migration) (db : DbState) :
    Except DbError Unit × DbState :=
  match execBatch m.sql db.schema with
  | .error e => (.error e, db)
  | .ok schema1 =>
    match DbState.insertRecord { db with schema := schema1 }
        ⟨m.version, m.name, current_timestamp, some m.checksum, 0, none⟩ with
    | .error e => (.error e, db)
    | .ok db2 => (.ok (), db2)

/-- The `ORDER BY version` of the verification query, as a sort relation
(stable insertion sort models the engine's ordered result set). -/
def versionLe (a b : SchemaVersionRecord) : Prop := a.version ≤ b.version

instance : DecidableRel versionLe := fun a b => Nat.decLe a.version b.version

instance : IsTotal SchemaVersionRecord versionLe := ⟨fun a b => Nat.le_total a.version b.version⟩

instance : IsTrans SchemaVersionRecord versionLe := ⟨fun _ _ _ h1 h2 => Nat.le_trans h1 h2⟩

/-- The loop body of `verify_migrations`: walk the selected rows in order and
fail with `InvalidQuery` on the first row whose stored checksum differs from
the checksum recomputed from the registry migration of the same version; rows
whose version has no registry entry are skipped. -/
def MigrationRunner.verifyRows (self : MigrationRunner) :
    List SchemaVersionRecord → Except DbError Unit
  | [] => .ok ()
  | r :: rest =>
    match self.migrations.find? (fun m => m.version == r.version) with
    | some m =>
      if r.checksum ≠ some m.checksum then .error .invalidQuery
      else self.verifyRows rest
    | none => self.verifyRows rest

/-- `MigrationRunner::verify_migrations`:
`SELECT version, name, checksum FROM schema_migrations WHERE checksum IS NOT NULL ORDER BY version`,
then compare each row against the registry. -/
def MigrationRunner.verify_migrations (self : MigrationRunner) (db : DbState) :
    Except DbError Unit :=
  self.verifyRows
    ((db.schemaMigrations.filter (fun r => r.checksum.isSome)).insertionSort versionLe)

/-- `MigrationRunner::detect_legacy_version`: probe structural markers newest
to oldest; 0 when nothing matches. -/
def MigrationRunner.detect_legacy_version (self : MigrationRunner) (db : DbState) : Nat :=
  if self.column_holds db "trades" "execution_portfolio" then 7
  else if self.column_holds db "trades" "deleted_at" then 6
  else if self.column_holds db "api_credentials" "live_mirror_enabled" then 5
  else if self.column_holds db "api_credentials" "auto_sync_enabled" then 4
  else if self.column_holds db "trades" "import_source" then 3
  else if self.column_holds db "trades" "planned_entries" then 2
  else if self.has_trades_table db then 1
  else 0

/-- `MigrationRunner::validate_schema_integrity`: fatal if
`PRAGMA integrity_check` is not "ok"; a disabled `foreign_keys` pragma is only
logged as a warning. -/
def MigrationRunner.validate_schema_integrity (_ : MigrationRunner) (db : DbState)
    (_expected_version : Nat) : Except DbError Unit :=
  if ¬ db.integrityOk then .error .sqliteFailure
  else .ok ()

/-- The notes marker of retroactive legacy records. -/
def legacyNotes : String := "Legacy migration - detected via introspection"

/-- The retroactive-insert loop of `bootstrap_legacy_schema`
(`for version in 1..=legacy_version`): each iteration is a plain
`conn.execute` INSERT with no surrounding transaction, so on failure the
earlier inserts persist. `self.migrations[version as usize]` is the Rust
index expression; versions reaching here are at most 7, so the `getD`
fallback is never taken. -/
def MigrationRunner.retroInsertLoop (self : MigrationRunner) :
    List Nat → DbState → Except DbError Unit × DbState
  | [], db => (.ok (), db)
  | v :: rest, db =>
    let m := (self.migrations.get? v).getD (Migration.mkNew 0 "" .invalid)
    match db.insertRecord ⟨v, m.name, current_timestamp, none, 0, some legacyNotes⟩ with
    | .error e => (.error e, db)
    | .ok db1 => self.retroInsertLoop rest db1

/-- `MigrationRunner::bootstrap_legacy_schema`: detect the legacy version,
apply migration 0 for real (creating the tracking table and its version-0
record), insert retroactive records for versions 1..=detected, then run the
post-bootstrap schema consistency check. -/
def MigrationRunner.bootstrap_legacy_schema (self : MigrationRunner) (db : DbState) :
    Except DbError Unit × DbState :=
  let legacy_version := self.detect_legacy_version db
  match self.apply_migration ((self.migrations.get? 0).getD (Migration.mkNew 0 "" .invalid)) db with
  | (.error e, db1) => (.error e, db1)
  | (.ok _, db1) =>
    match self.retroInsertLoop (List.range' 1 legacy_version) db1 with
    | (.error e, db2) => (.error e, db2)
    | (.ok _, db2) =>
      match self.validate_schema_integrity db2 legacy_version with
      | .error e => (.error e, db2)
      | .ok _ => (.ok (), db2)

/-- `MigrationRunner::create_backup`: resolve the db file's parent directory,
create `<parent>/backups`, copy the database into
`pre_migration_v<target>_<timestamp>.db` via the hot-backup API, then verify
the snapshot (size > 0 and integrity "ok") and prune old backups. Each
fallible step aborts with the error the code maps it to; a snapshot that
fails verification stays on disk. -/
def MigrationRunner.create_backup (_ : MigrationRunner) (fs : Fs) (target_version : Nat) :
    Except DbError String × Fs :=
  match fs.dbDir with
  | none => (.error .invalidPath, fs)
  | some dir =>
    if ¬ fs.mkdirOk then (.error .sqliteFailure, fs)
    else
      let name := backupFileName target_version
      let path := dir ++ "/backups/" ++ name
      if ¬ fs.copyOk then (.error .sqlExec, fs)
      else
        let file : BackupFile := ⟨name, fs.snapshotSize, current_timestamp, fs.snapshotIntegrityOk⟩
        let fs1 : Fs := { fs with
          backupFiles := fs.backupFiles.filter (fun f => f.name != name) ++ [file] }
        if fs.snapshotSize == 0 then (.error .sqliteFailure, fs1)
        else if ¬ fs.snapshotIntegrityOk then (.error .sqliteFailure, fs1)
        else
          match cleanup_old_backups fs1 with
          | (.error e, fs2) => (.error e, fs2)
          | (.ok _, fs2) => (.ok path, fs2)

/-- The combined state `run_pending_migrations` acts on: the open connection
and the filesystem reachable from `db_path`. -/
structure World where
  db : DbState
  fs : Fs
deriving DecidableEq

/-- The legacy check at the top of `run_pending_migrations`: bootstrap the
migration system when the tracking table is absent. -/
def MigrationRunner.legacyCheck (self : MigrationRunner) (db : DbState) :
    Except DbError Unit × DbState :=
  if ¬ self.has_schema_migrations_table db then self.bootstrap_legacy_schema db
  else (.ok (), db)

/-- The pending set: registry migrations with `version > current_version`
(`version > 0` when the tracking table exists but is empty). -/
def MigrationRunner.pendingMigrations (self : MigrationRunner) (db : DbState) : List Migration :=
  self.migrations.filter (fun m =>
    match self.get_current_version db with
    | some v => Nat.blt v m.version
    | none => Nat.blt 0 m.version)

/-- The apply loop of `run_pending_migrations`: apply each pending migration
in order, counting successes, stopping on the first failure. -/
def MigrationRunner.applyLoop (self : MigrationRunner) :
    List Migration → DbState → Nat → Except DbError Nat × DbState
  | [], db, applied => (.ok applied, db)
  | m :: rest, db, applied =>
    match self.apply_migration m db with
    | (.ok _, db1) => self.applyLoop rest db1 (applied + 1)
    | (.error e, db1) => (.error e, db1)

/-- `MigrationRunner::run_pending_migrations`: legacy check, compute the
pending set, return Ok(0) when nothing is pending, otherwise back up using the
highest pending version and apply the pending migrations in order. -/
def MigrationRunner.run_pending_migrations (self : MigrationRunner) (w : World) :
    Except DbError Nat × World :=
  match self.legacyCheck w.db with
  | (.error e, db0) => (.error e, ⟨db0, w.fs⟩)
  | (.ok _, db0) =>
    let pending := self.pendingMigrations db0
    match pending.getLast? with
    | none => (.ok 0, ⟨db0, w.fs⟩)
    | some lastm =>
      match self.create_backup w.fs lastm.version with
      | (.error e, fs1) => (.error e, ⟨db0, fs1⟩)
      | (.ok _backup_path, fs1) =>
        match self.applyLoop pending db0 0 with
        | (.ok applied, db1) => (.ok applied, ⟨db1, fs1⟩)
        | (.error e, db1) => (.error e, ⟨db1, fs1⟩)

/-- Modelled from the spec: src-tauri/src/db/schema.sql is not among the
sources. `Database::new` executes it on every startup, so it must be
idempotent; per the spec's legacy-database description it is the pre-tracking
base schema — it creates the trade-journal tables (IF NOT EXISTS) and does
not create the schema_migrations tracking table. -/
def schemaSqlBatch (s : Schema) : Except DbError Schema := do
  let s ← s.createTableIfAbsent "settings" ["id"]
  let s ← s.createTableIfAbsent "trades" ["id", "symbol"]
  let s ← s.createTableIfAbsent "api_credentials" ["id", "exchange"]
  s.createTableIfAbsent "api_sync_history" ["id"]

/-- `Database::run_migrations` (src/src-tauri/src/db/connection.rs): the
inline ad-hoc migrations — add `planned_entries`/`effective_entries` and
`import_source` to `trades` when absent. -/
def Database.run_migrations (db : DbState) : Except DbError DbState := do
  let db ←
    if ¬ db.schema.columnHolds "trades" "planned_entries" then do
      let s ← db.schema.addColumn "trades" "planned_entries"
      let s ← s.addColumn "trades" "effective_entries"
      pure { db with schema := s }
    else pure db
  if ¬ db.schema.columnHolds "trades" "import_source" then do
    let s ← db.schema.addColumn "trades" "import_source"
    pure { db with schema := s }
  else pure db

/-- `Database::new` (src/src-tauri/src/db/connection.rs): open the connection,
enable foreign keys, switch to WAL, execute schema.sql, and run the inline
`Database::run_migrations`. Note that it never constructs or invokes a
`MigrationRunner`. -/
def Database.mkNew (db : DbState) : Except DbError DbState := do
  let db : DbState := { db with fkEnabled := true }
  let s ← schemaSqlBatch db.schema
  Database.run_migrations { db with schema := s }

/-- The state of a freshly created, empty database file. -/
def emptyDb : DbState := ⟨⟨[]⟩, [], true, true⟩

instance {ε α : Type} [DecidableEq ε] [DecidableEq α] : DecidableEq (Except ε α)
  | .ok a, .ok b =>
    if h : a = b then .isTrue (by rw [h]) else .isFalse (by intro hc; cases hc; exact h rfl)
  | .error a, .error b =>
    if h : a = b then .isTrue (by rw [h]) else .isFalse (by intro hc; cases hc; exact h rfl)
  | .ok _, .error _ => .isFalse (by intro hc; cases hc)
  | .error _, .ok _ => .isFalse (by intro hc; cases hc)

/-! ### Concrete states used by witnesses and counterexamples -/

/-- A healthy filesystem around the database file: parent directory `/data`,
every fallible operation succeeding, a non-empty intact snapshot, no
pre-existing backups. -/
def demoFs : Fs := ⟨some "/data", true, true, 1, true, true, []⟩

/-- A fresh install: empty database file, healthy filesystem. -/
def demoWorld : World := ⟨emptyDb, demoFs⟩

/-- A filesystem on which `fs::create_dir_all` fails. -/
def mkdirFailFs : Fs := ⟨some "/data", false, true, 1, true, true, []⟩

/-- A legacy version-1 database: the base `trades` table exists, no tracking
table. -/
def legacyV1Db : DbState := ⟨⟨[("trades", ["id", "symbol"])]⟩, [], true, true⟩

/-- A database whose tracking table reports version 7 but whose version-1
record stores a checksum different from the one recomputed from the compiled
registry (a tampered migration script). -/
def tamperedDb : DbState :=
  ⟨⟨[("schema_migrations", schemaMigrationsCols)]⟩,
   [⟨1, "initial_schema", 0, some "tampered", 0, none⟩,
    ⟨7, "add_execution_calculations", 0, some "also-tampered", 0, none⟩],
   true, true⟩

/-- A database with no `trades` table whose `api_credentials` table carries
the auto-sync marker column. -/
def noTradesDb : DbState :=
  ⟨⟨[("api_credentials", ["id", "auto_sync_enabled"])]⟩, [], true, true⟩

/-- A database constructed by applying only the raw DDL of migrations
`1..=k`, with no tracking table — the legacy fixture of the spec's
detection-correctness property. -/
def rawLegacySchema : Nat → Except DbError Schema
  | 0 => .ok ⟨[]⟩
  | k + 1 => do
    let s ← rawLegacySchema k
    execBatch (((collect_migrations.get? (k + 1)).getD (Migration.mkNew 0 "" .invalid)).sql) s

/-- Detection outcome on the raw-DDL legacy fixture for level `k`. -/
def rawLegacyDetect (k : Nat) : Except DbError Nat :=
  (rawLegacySchema k).map (fun s =>
    MigrationRunner.mkNew.detect_legacy_version ⟨s, [], true, true⟩)

/-- A row on which the verifier's comparison fires: its version resolves in
the registry and the stored checksum differs from the recomputed one. -/
def MigrationRunner.rowMismatch (self : MigrationRunner) (r : SchemaVersionRecord) : Bool :=
  match self.migrations.find? (fun m => m.version == r.version) with
  | some m => r.checksum != some m.checksum
  | none => false

/-- The version-0 record `apply_migration` writes when the bootstrap
migration itself is applied. -/
def bootstrapRecord : SchemaVersionRecord :=
  ⟨0, "bootstrap", current_timestamp, some (sqlSha256 .bootstrap), 0, none⟩

/-- The retroactive record `bootstrap_legacy_schema` inserts for a detected
legacy version: NULL checksum, the introspection notes marker. -/
def legacyRecord (v : Nat) : SchemaVersionRecord :=
  ⟨v, ((collect_migrations.get? v).getD (Migration.mkNew 0 "" .invalid)).name,
   current_timestamp, none, 0, some legacyNotes⟩

/-- The record `apply_migration` inserts for a migration it applies. -/
def appliedRecord (m : Migration) : SchemaVersionRecord :=
  ⟨m.version, m.name, current_timestamp, some m.checksum, 0, none⟩

/-- The database state `bootstrap_legacy_schema` produces from a legacy
database: the tracking table appended to the schema, the version-0 record
with its real checksum, and one retroactive record per detected version. -/
def bootstrappedDb (db : DbState) : DbState :=
  { db with
    schema := ⟨db.schema.tables ++ [("schema_migrations", schemaMigrationsCols)]⟩,
    schemaMigrations :=
      bootstrapRecord ::
        (List.range' 1 (MigrationRunner.mkNew.detect_legacy_version db)).map legacyRecord }

/-- A database whose tracking table holds a (checksummed) record at a version
this build's registry does not know. -/
def unknownVersionDb : DbState :=
  ⟨⟨[("schema_migrations", schemaMigrationsCols)]⟩,
   [⟨99, "from_the_future", 0, some "some-checksum", 0, none⟩], true, true⟩

/-- A tracked database at version 0 (tracking table present, only the
bootstrap row), on which migrations 1..7 are pending. -/
def trackedV0Db : DbState :=
  ⟨⟨[("schema_migrations", schemaMigrationsCols)]⟩, [bootstrapRecord], true, true⟩

/-- The record the retroactive-insert loop writes for a version, via a given
runner's registry. -/
def retroRecordOf (self : MigrationRunner) (v : Nat) : SchemaVersionRecord :=
  ⟨v, ((self.migrations.get? v).getD (Migration.mkNew 0 "" .invalid)).name,
    current_timestamp, none, 0, some legacyNotes⟩

/-- The snapshot path actually produced by `create_backup` on the healthy
demo filesystem (empty string if it failed). -/
def demoBackupPath : String :=
  ((MigrationRunner.mkNew.create_backup demoFs 7).1.toOption).getD ""

/-- A backup directory already holding seven pattern-matching snapshots and
one unrelated file. -/
def crowdedFs : Fs :=
  ⟨some "/data", true, true, 1, true, true,
   [⟨"pre_migration_v1_100.db", 1, 100, true⟩,
    ⟨"pre_migration_v2_200.db", 1, 200, true⟩,
    ⟨"pre_migration_v3_300.db", 1, 300, true⟩,
    ⟨"pre_migration_v4_400.db", 1, 400, true⟩,
    ⟨"pre_migration_v5_500.db", 1, 500, true⟩,
    ⟨"pre_migration_v6_600.db", 1, 600, true⟩,
    ⟨"pre_migration_v7_700.db", 1, 700, true⟩,
    ⟨"unrelated.txt", 1, 50, true⟩]⟩

/-- The world state after one full startup run on the fresh demo world. -/
def demoSecondWorld : World := (MigrationRunner.mkNew.run_pending_migrations demoWorld).2

/-! ### Helper lemmas -/

theorem insertRecord_ok (db : DbState) (r : SchemaVersionRecord)
    (htab : db.schema.hasTable "schema_migrations" = true)
    (hfresh : db.hasRecord r.version = false) :
    db.insertRecord r = .ok { db with schemaMigrations := db.schemaMigrations ++ [r] } := by
  simp only [DbState.hasRecord] at hfresh
  unfold DbState.insertRecord
  rw [if_neg (by simp [htab]), if_neg (by simp [hfresh])]

theorem retroInsertLoop_ok (self : MigrationRunner) (vs : List Nat) (db : DbState)
    (htab : db.schema.hasTable "schema_migrations" = true)
    (hfresh : ∀ v ∈ vs, db.hasRecord v = false)
    (hnd : vs.Nodup) :
    self.retroInsertLoop vs db =
      (.ok (), { db with schemaMigrations :=
        db.schemaMigrations ++ vs.map (retroRecordOf self) }) := by
  induction vs generalizing db with
  | nil => simp [MigrationRunner.retroInsertLoop]
  | cons v rest ih =>
    have h1 := hfresh v (List.mem_cons_self v rest)
    have hins := insertRecord_ok db (retroRecordOf self v) htab h1
    simp only [retroRecordOf] at hins
    unfold MigrationRunner.retroInsertLoop
    dsimp only
    rw [hins]
    dsimp only
    rw [ih]
    · simp [retroRecordOf]
    · exact htab
    · intro w hw
      have h2 := hfresh w (List.mem_cons_of_mem _ hw)
      have hvw : v ≠ w := fun hvw => (List.nodup_cons.mp hnd).1 (hvw ▸ hw)
      simp only [DbState.hasRecord, List.any_append] at h2 ⊢
      simp [h2, hvw]
    · exact (List.nodup_cons.mp hnd).2

theorem verifyRows_ok_of_no_mismatch (self : MigrationRunner) (l : List SchemaVersionRecord)
    (h : ∀ r ∈ l, self.rowMismatch r = false) : self.verifyRows l = .ok () := by
  induction l with
  | nil => rfl
  | cons r rest ih =>
    have hr := h r (List.mem_cons_self r rest)
    have hrest := ih (fun x hx => h x (List.mem_cons_of_mem _ hx))
    unfold MigrationRunner.verifyRows
    split
    next m hf =>
      rw [if_neg ?_]
      · exact hrest
      · simp only [MigrationRunner.rowMismatch, hf, bne_eq_false_iff_eq] at hr
        simp [hr]
    next hf => exact hrest

theorem verifyRows_error_of_mismatch (self : MigrationRunner) (l : List SchemaVersionRecord)
    (h : ∃ r ∈ l, self.rowMismatch r = true) :
    self.verifyRows l = .error .invalidQuery := by
  induction l with
  | nil => simp at h
  | cons r rest ih =>
    unfold MigrationRunner.verifyRows
    rcases h with ⟨x, hx, hmx⟩
    rcases List.mem_cons.mp hx with rfl | hxt
    · simp only [MigrationRunner.rowMismatch] at hmx
      split
      next m hf =>
        rw [hf] at hmx
        simp only [bne_iff_ne, ne_eq, decide_eq_true_eq] at hmx
        simp [hmx]
      next hf => rw [hf] at hmx; simp at hmx
    · split
      next m hf =>
        by_cases hcs : r.checksum = some m.checksum
        · rw [if_neg (by simp [hcs])]
          exact ih ⟨_, hxt, hmx⟩
        · simp [hcs]
      next hf => exact ih ⟨_, hxt, hmx⟩

theorem verifyRows_mismatch_of_error (self : MigrationRunner) (l : List SchemaVersionRecord)
    (e : DbError) (h : self.verifyRows l = .error e) :
    ∃ r ∈ l, self.rowMismatch r = true := by
  induction l with
  | nil => simp [MigrationRunner.verifyRows] at h
  | cons r rest ih =>
    unfold MigrationRunner.verifyRows at h
    split at h
    next m hf =>
      split at h
      next hcs =>
        refine ⟨r, List.mem_cons_self r rest, ?_⟩
        simp only [ne_eq] at hcs
        simp [MigrationRunner.rowMismatch, hf, bne_iff_ne, hcs]
      next hcs =>
        rcases ih h with ⟨x, hx, hmx⟩
        exact ⟨x, List.mem_cons_of_mem _ hx, hmx⟩
    next hf =>
      rcases ih h with ⟨x, hx, hmx⟩
      exact ⟨x, List.mem_cons_of_mem _ hx, hmx⟩

set_option maxRecDepth 4000 in
theorem find?_version_in_registry (m : Migration) (hm : m ∈ collect_migrations) :
    collect_migrations.find? (fun m2 => m2.version == m.version) = some m := by
  fin_cases hm <;> decide

theorem create_backup_fails (fs : Fs) (v : Nat)
    (hfail : fs.mkdirOk = false ∨ fs.copyOk = false ∨ fs.snapshotSize = 0 ∨
      fs.snapshotIntegrityOk = false) :
    (MigrationRunner.mkNew.create_backup fs v).1.isOk = false := by
  unfold MigrationRunner.create_backup
  cases hd : fs.dbDir with
  | none => rfl
  | some dir =>
    dsimp only
    by_cases hm : fs.mkdirOk
    swap
    · rw [if_pos (by simp [hm])]; rfl
    rw [if_neg (by simp [hm])]
    by_cases hcp : fs.copyOk
    swap
    · rw [if_pos (by simp [hcp])]; rfl
    rw [if_neg (by simp [hcp])]
    by_cases hsz : fs.snapshotSize = 0
    · rw [if_pos (by simp [hsz])]; rfl
    rw [if_neg (by simp [hsz])]
    by_cases hi : fs.snapshotIntegrityOk
    swap
    · rw [if_pos (by simp [hi])]; rfl
    exfalso
    rcases hfail with h | h | h | h
    · rw [hm] at h; cases h
    · rw [hcp] at h; cases h
    · exact hsz h
    · rw [hi] at h; cases h

theorem create_backup_path (fs : Fs) (target : Nat) (dir p : String) (fs1 : Fs)
    (hd : fs.dbDir = some dir)
    (hcb : MigrationRunner.mkNew.create_backup fs target = (.ok p, fs1)) :
    p = dir ++ "/backups/" ++ backupFileName target := by
  unfold MigrationRunner.create_backup at hcb
  rw [hd] at hcb
  dsimp only at hcb
  by_cases hm : fs.mkdirOk
  swap
  · rw [if_pos (by simp [hm])] at hcb; simp at hcb
  rw [if_neg (by simp [hm])] at hcb
  by_cases hcp : fs.copyOk
  swap
  · rw [if_pos (by simp [hcp])] at hcb; simp at hcb
  rw [if_neg (by simp [hcp])] at hcb
  by_cases hsz : fs.snapshotSize = 0
  · rw [if_pos (by simp [hsz])] at hcb; simp at hcb
  rw [if_neg (by simp [hsz])] at hcb
  by_cases hi : fs.snapshotIntegrityOk
  swap
  · rw [if_pos (by simp [hi])] at hcb; simp at hcb
  rw [if_neg (by simp [hi])] at hcb
  split at hcb
  · simp at hcb
  · have := congrArg Prod.fst hcb
    simp at this
    exact this.symm

theorem run_with_no_pending (w : World) (db0 : DbState)
    (hlc : MigrationRunner.mkNew.legacyCheck w.db = (.ok (), db0))
    (hp : MigrationRunner.mkNew.pendingMigrations db0 = []) :
    MigrationRunner.mkNew.run_pending_migrations w = (.ok 0, ⟨db0, w.fs⟩) := by
  unfold MigrationRunner.run_pending_migrations
  rw [hlc]
  dsimp only
  rw [hp]
  rfl

theorem pairwise_getLast_max {α : Type} (R : α → α → Prop) (l : List α) (x : α)
    (hp : l.Pairwise R) (hl : l.getLast? = some x) :
    ∀ y ∈ l, y = x ∨ R y x := by
  induction l with
  | nil => simp at hl
  | cons a t ih =>
    cases t with
    | nil =>
      simp at hl
      subst hl
      intro y hy
      left
      simpa using hy
    | cons b t2 =>
      rw [List.getLast?_cons_cons] at hl
      intro y hy
      rcases List.mem_cons.mp hy with rfl | hyt
      · right
        have hx : x ∈ b :: t2 := List.mem_of_getLast?_eq_some hl
        exact (List.pairwise_cons.mp hp).1 x hx
      · exact ih (List.pairwise_cons.mp hp).2 hl y hyt

theorem pending_getLast_version_max (db : DbState) (m : Migration)
    (hq : (MigrationRunner.mkNew.pendingMigrations db).getLast? = some m) :
    ∀ m2 ∈ MigrationRunner.mkNew.pendingMigrations db, m2.version ≤ m.version := by
  have hreg : collect_migrations.Pairwise (fun a b => a.version ≤ b.version) := by decide
  have hpair : (MigrationRunner.mkNew.pendingMigrations db).Pairwise
      (fun a b => a.version ≤ b.version) :=
    List.Pairwise.sublist (List.filter_sublist _) hreg
  intro m2 hm2
  rcases pairwise_getLast_max _ _ m hpair hq m2 hm2 with rfl | hle
  · exact Nat.le_refl _
  · exact hle

theorem cleanup_retention (fs fs1 : Fs)
    (hcl : cleanup_old_backups fs = (.ok (), fs1)) :
    (fs1.backupFiles.filter isBackupPattern).length ≤ 5 ∧
    ∀ g ∈ fs.backupFiles.filter isBackupPattern,
      g ∉ fs1.backupFiles.filter isBackupPattern →
      ∀ f ∈ fs1.backupFiles.filter isBackupPattern, g.mtime ≤ f.mtime := by
  unfold cleanup_old_backups at hcl
  by_cases hrd : fs.readDirOk
  swap
  · rw [if_pos (by simp [hrd])] at hcl; simp at hcl
  rw [if_neg (by simp [hrd])] at hcl
  dsimp only at hcl
  have hfs1 : fs1 = { fs with backupFiles :=
      (fs.backupFiles.filter (fun f => ! isBackupPattern f) ++
        ((fs.backupFiles.filter isBackupPattern).insertionSort mtimeLe).drop
          (((fs.backupFiles.filter isBackupPattern).insertionSort mtimeLe).length - 5)) } := by
    have := congrArg Prod.snd hcl
    simpa using this.symm
  subst hfs1
  have hsorted := List.sorted_insertionSort mtimeLe (fs.backupFiles.filter isBackupPattern)
  have hkeepmem : ∀ f ∈ ((fs.backupFiles.filter isBackupPattern).insertionSort mtimeLe).drop
      (((fs.backupFiles.filter isBackupPattern).insertionSort mtimeLe).length - 5),
      isBackupPattern f = true := by
    intro f hf
    have hf2 : f ∈ (fs.backupFiles.filter isBackupPattern).insertionSort mtimeLe :=
      List.drop_subset _ _ hf
    rw [List.mem_insertionSort] at hf2
    exact (List.mem_filter.mp hf2).2
  have hfilter1 : (fs.backupFiles.filter (fun f => ! isBackupPattern f) ++
        ((fs.backupFiles.filter isBackupPattern).insertionSort mtimeLe).drop
          (((fs.backupFiles.filter isBackupPattern).insertionSort mtimeLe).length - 5)).filter
        isBackupPattern =
      ((fs.backupFiles.filter isBackupPattern).insertionSort mtimeLe).drop
        (((fs.backupFiles.filter isBackupPattern).insertionSort mtimeLe).length - 5) := by
    rw [List.filter_append]
    have h1 : (fs.backupFiles.filter (fun f => ! isBackupPattern f)).filter isBackupPattern =
        [] := by
      rw [List.filter_eq_nil_iff]
      intro a ha
      have := (List.mem_filter.mp ha).2
      simp only [Bool.not_eq_true'] at this
      simp [this]
    rw [h1, List.filter_eq_self.mpr hkeepmem, List.nil_append]
  constructor
  · dsimp only
    rw [hfilter1, List.length_drop, List.length_insertionSort]
    omega
  · dsimp only
    rw [hfilter1]
    intro g hg hgk f hfk
    set sorted := (fs.backupFiles.filter isBackupPattern).insertionSort mtimeLe with hsorteddef
    set k := sorted.length - 5 with hk
    have hgsorted : g ∈ sorted := by rw [hsorteddef, List.mem_insertionSort]; exact hg
    have hsplit : sorted.take k ++ sorted.drop k = sorted := List.take_append_drop k sorted
    have hPairSplit : (sorted.take k ++ sorted.drop k).Pairwise mtimeLe := by
      rw [hsplit]; exact hsorted
    have hcross := (List.pairwise_append.mp hPairSplit).2.2
    have hgtake : g ∈ sorted.take k := by
      rcases List.mem_append.mp (hsplit ▸ hgsorted) with h | h
      · exact h
      · exact absurd h hgk
    exact hcross g hgtake f hfk

theorem insertRecord_ok_inv (db : DbState) (r : SchemaVersionRecord) (db2 : DbState)
    (h : db.insertRecord r = .ok db2) :
    db2 = { db with schemaMigrations := db.schemaMigrations ++ [r] } := by
  unfold DbState.insertRecord at h
  split at h
  · cases h
  · split at h
    · cases h
    · cases h; rfl

theorem apply_migration_ok_shape (self : MigrationRunner) (m : Migration) (db : DbState)
    (u : Unit) (db1 : DbState) (h : self.apply_migration m db = (.ok u, db1)) :
    execBatch m.sql db.schema = .ok db1.schema ∧
    db1.schemaMigrations = db.schemaMigrations ++ [appliedRecord m] := by
  unfold MigrationRunner.apply_migration at h
  cases hb : execBatch m.sql db.schema with
  | error e => rw [hb] at h; simp at h
  | ok s =>
    rw [hb] at h
    dsimp only at h
    cases hi : DbState.insertRecord { db with schema := s }
        ⟨m.version, m.name, current_timestamp, some m.checksum, 0, none⟩ with
    | error e => rw [hi] at h; simp at h
    | ok db2 =>
      rw [hi] at h
      dsimp only at h
      have hdb2 := insertRecord_ok_inv _ _ _ hi
      have h2 : db2 = db1 := by
        have := congrArg Prod.snd h
        simpa using this
      subst h2
      refine ⟨?_, ?_⟩
      · rw [hdb2]
      · rw [hdb2]; rfl

theorem createTable_hasTable_mono (s : Schema) (t0 : String) (cols : List String)
    (s1 : Schema) (t : String) (h : s.createTable t0 cols = .ok s1)
    (ht : s.hasTable t = true) : s1.hasTable t = true := by
  unfold Schema.createTable at h
  split at h
  · cases h
  · cases h
    simp only [Schema.hasTable, List.any_append] at ht ⊢
    simp [ht]

theorem createTable_creates (s : Schema) (t0 : String) (cols : List String)
    (s1 : Schema) (h : s.createTable t0 cols = .ok s1) : s1.hasTable t0 = true := by
  unfold Schema.createTable at h
  split at h
  · cases h
  · cases h
    simp [Schema.hasTable, List.any_append]

theorem addColumn_hasTable (s : Schema) (t0 c : String) (s1 : Schema)
    (h : s.addColumn t0 c = .ok s1) : ∀ t, s1.hasTable t = s.hasTable t := by
  unfold Schema.addColumn at h
  split at h
  · cases h
  · split at h
    · cases h
    · cases h
      intro t
      simp only [Schema.hasTable, List.any_map]
      congr 1
      funext p
      by_cases hp : p.1 == t0 <;> simp [Function.comp, hp]

theorem execBatch_preserves_hasTable (q : Sql) (s s1 : Schema) (t : String)
    (h : execBatch q s = .ok s1) (ht : s.hasTable t = true) : s1.hasTable t = true := by
  cases q with
  | bootstrap => exact createTable_hasTable_mono _ _ _ _ _ h ht
  | initialSchema =>
    simp only [execBatch, bind, Except.bind] at h
    cases h1 : s.createTable "settings" ["id"] with
    | error e => rw [h1] at h; cases h
    | ok sa =>
      rw [h1] at h
      dsimp only at h
      cases h2 : sa.createTable "trades" ["id", "symbol"] with
      | error e => rw [h2] at h; cases h
      | ok sb =>
        rw [h2] at h
        dsimp only at h
        cases h3 : sb.createTable "api_credentials" ["id", "exchange"] with
        | error e => rw [h3] at h; cases h
        | ok sc =>
          rw [h3] at h
          dsimp only at h
          exact createTable_hasTable_mono _ _ _ _ _ h
            (createTable_hasTable_mono _ _ _ _ _ h3
              (createTable_hasTable_mono _ _ _ _ _ h2
                (createTable_hasTable_mono _ _ _ _ _ h1 ht)))
  | addPlannedAndEffectiveEntries =>
    simp only [execBatch, bind, Except.bind] at h
    cases h1 : s.addColumn "trades" "planned_entries" with
    | error e => rw [h1] at h; cases h
    | ok sa =>
      rw [h1] at h
      dsimp only at h
      rw [addColumn_hasTable _ _ _ _ h t, addColumn_hasTable _ _ _ _ h1 t]
      exact ht
  | addImportSource => rw [addColumn_hasTable _ _ _ _ h t]; exact ht
  | addAutoSyncColumns => rw [addColumn_hasTable _ _ _ _ h t]; exact ht
  | addLiveMirrorColumn => rw [addColumn_hasTable _ _ _ _ h t]; exact ht
  | addSoftDelete => rw [addColumn_hasTable _ _ _ _ h t]; exact ht
  | addExecutionCalculations => rw [addColumn_hasTable _ _ _ _ h t]; exact ht
  | invalid => cases h

theorem apply_ok_hasTable (self : MigrationRunner) (m : Migration) (db : DbState)
    (u : Unit) (db1 : DbState) (h : self.apply_migration m db = (.ok u, db1))
    (ht : db.schema.hasTable "schema_migrations" = true) :
    db1.schema.hasTable "schema_migrations" = true :=
  execBatch_preserves_hasTable m.sql db.schema db1.schema "schema_migrations"
    (apply_migration_ok_shape self m db u db1 h).1 ht

theorem apply_ok_hasRecord (self : MigrationRunner) (m : Migration) (db : DbState)
    (u : Unit) (db1 : DbState) (h : self.apply_migration m db = (.ok u, db1)) :
    (∀ v, db.hasRecord v = true → db1.hasRecord v = true) ∧
    db1.hasRecord m.version = true := by
  have hsh := (apply_migration_ok_shape self m db u db1 h).2
  constructor
  · intro v hv
    simp only [DbState.hasRecord, hsh, List.any_append]
    simp only [DbState.hasRecord] at hv
    simp [hv]
  · simp only [DbState.hasRecord, hsh, List.any_append]
    simp [appliedRecord]

theorem applyLoop_ok_facts (self : MigrationRunner) (ms : List Migration) :
    ∀ (db : DbState) (acc n : Nat) (db1 : DbState),
    self.applyLoop ms db acc = (.ok n, db1) →
    (db.schema.hasTable "schema_migrations" = true →
      db1.schema.hasTable "schema_migrations" = true) ∧
    (∀ v, db.hasRecord v = true → db1.hasRecord v = true) ∧
    (∀ m ∈ ms, db1.hasRecord m.version = true) := by
  induction ms with
  | nil =>
    intro db acc n db1 h
    unfold MigrationRunner.applyLoop at h
    have h2 : db = db1 := by have := congrArg Prod.snd h; simpa using this
    subst h2
    exact ⟨fun ht => ht, fun v hv => hv, by simp⟩
  | cons m rest ih =>
    intro db acc n db1 h
    unfold MigrationRunner.applyLoop at h
    cases ha : self.apply_migration m db with
    | mk ares dbm =>
      rw [ha] at h
      cases ares with
      | error e => simp at h
      | ok u =>
        dsimp only at h
        rcases ih dbm (acc + 1) n db1 h with ⟨iht, ihmono, ihmem⟩
        rcases apply_ok_hasRecord self m db u dbm ha with ⟨amono, amem⟩
        refine ⟨fun ht => iht (apply_ok_hasTable self m db u dbm ha ht),
          fun v hv => ihmono v (amono v hv), ?_⟩
        intro m2 hm2
        rcases List.mem_cons.mp hm2 with rfl | hm2t
        · exact ihmono m2.version amem
        · exact ihmem m2 hm2t

theorem retroInsertLoop_schema (self : MigrationRunner) (vs : List Nat) :
    ∀ db : DbState, (self.retroInsertLoop vs db).2.schema = db.schema := by
  induction vs with
  | nil => intro db; rfl
  | cons v rest ih =>
    intro db
    unfold MigrationRunner.retroInsertLoop
    dsimp only
    cases hi : db.insertRecord ⟨v,
        ((self.migrations.get? v).getD (Migration.mkNew 0 "" .invalid)).name,
        current_timestamp, none, 0, some legacyNotes⟩ with
    | error e => rfl
    | ok db1 =>
      dsimp only
      rw [ih db1, insertRecord_ok_inv _ _ _ hi]

theorem bootstrap_ok_hasTable (db : DbState) (u : Unit) (db0 : DbState)
    (h : MigrationRunner.mkNew.bootstrap_legacy_schema db = (.ok u, db0)) :
    db0.schema.hasTable "schema_migrations" = true := by
  unfold MigrationRunner.bootstrap_legacy_schema at h
  cases ha : MigrationRunner.mkNew.apply_migration
      ((MigrationRunner.mkNew.migrations.get? 0).getD (Migration.mkNew 0 "" .invalid)) db with
  | mk ares db1 =>
    rw [ha] at h
    cases ares with
    | error e => simp at h
    | ok u2 =>
      dsimp only at h
      have ht1 : db1.schema.hasTable "schema_migrations" = true := by
        have hsh := (apply_migration_ok_shape _ _ _ _ _ ha).1
        have hsh2 : execBatch Sql.bootstrap db.schema = .ok db1.schema := hsh
        unfold execBatch at hsh2
        exact createTable_creates _ _ _ _ hsh2
      cases hl : MigrationRunner.mkNew.retroInsertLoop
          (List.range' 1 (MigrationRunner.mkNew.detect_legacy_version db)) db1 with
      | mk lres db2 =>
        rw [hl] at h
        have hsch : db2.schema = db1.schema := by
          have := retroInsertLoop_schema MigrationRunner.mkNew
            (List.range' 1 (MigrationRunner.mkNew.detect_legacy_version db)) db1
          rw [hl] at this
          exact this
        cases lres with
        | error e => simp at h
        | ok u3 =>
          dsimp only at h
          cases hv : MigrationRunner.mkNew.validate_schema_integrity db2
              (MigrationRunner.mkNew.detect_legacy_version db) with
          | error e => rw [hv] at h; simp at h
          | ok u4 =>
            rw [hv] at h
            dsimp only at h
            have hdb0 : db2 = db0 := by have := congrArg Prod.snd h; simpa using this
            rw [← hdb0, hsch]
            exact ht1

theorem legacyCheck_ok_hasTable (db : DbState) (u : Unit) (db0 : DbState)
    (h : MigrationRunner.mkNew.legacyCheck db = (.ok u, db0)) :
    db0.schema.hasTable "schema_migrations" = true := by
  unfold MigrationRunner.legacyCheck at h
  by_cases ht : MigrationRunner.mkNew.has_schema_migrations_table db
  · rw [if_neg (by simp [ht])] at h
    have h2 : db = db0 := by have := congrArg Prod.snd h; simpa using this
    subst h2
    exact ht
  · rw [if_pos (by simpa using ht)] at h
    exact bootstrap_ok_hasTable db u db0 h

theorem sqlMax_ge_of_mem (a : Nat) (l : List Nat) (h : a ∈ l) :
    ∃ v, sqlMax l = some v ∧ a ≤ v := by
  induction l with
  | nil => simp at h
  | cons x xs ih =>
    unfold sqlMax
    rcases List.mem_cons.mp h with rfl | hx
    · cases hm : sqlMax xs with
      | none => exact ⟨a, rfl, Nat.le_refl a⟩
      | some m => exact ⟨Nat.max a m, rfl, Nat.le_max_left a m⟩
    · rcases ih hx with ⟨v, hv, hav⟩
      rw [hv]
      exact ⟨Nat.max x v, rfl, Nat.le_trans hav (Nat.le_max_right x v)⟩

theorem current_version_ge_of_hasRecord (db : DbState) (v : Nat)
    (ht : db.schema.hasTable "schema_migrations" = true)
    (hr : db.hasRecord v = true) :
    ∃ cur, MigrationRunner.mkNew.get_current_version db = some cur ∧ v ≤ cur := by
  unfold MigrationRunner.get_current_version MigrationRunner.has_schema_migrations_table
  rw [if_neg (by simp [ht])]
  simp only [DbState.hasRecord, List.any_eq_true] at hr
  rcases hr with ⟨r, hrmem, hrv⟩
  have hv : v ∈ db.schemaMigrations.map (fun r => r.version) := by
    rw [List.mem_map]
    exact ⟨r, hrmem, beq_iff_eq.mp hrv⟩
  exact sqlMax_ge_of_mem v _ hv

theorem pending_nil_of_ge7 (db : DbState) (cur : Nat)
    (hc : MigrationRunner.mkNew.get_current_version db = some cur) (h7 : 7 ≤ cur) :
    MigrationRunner.mkNew.pendingMigrations db = [] := by
  unfold MigrationRunner.pendingMigrations
  rw [hc, List.filter_eq_nil_iff]
  intro m hm
  have hle : m.version ≤ 7 :=
    (by decide : ∀ m2 ∈ MigrationRunner.mkNew.migrations, m2.version ≤ 7) m hm
  dsimp only
  simp only [Nat.blt_eq]
  omega

theorem pending_ne_nil_mem_m7 (db : DbState)
    (h : MigrationRunner.mkNew.pendingMigrations db ≠ []) :
    (Migration.mkNew 7 "add_execution_calculations" .addExecutionCalculations) ∈
      MigrationRunner.mkNew.pendingMigrations db := by
  rcases List.exists_mem_of_ne_nil _ h with ⟨m, hm⟩
  unfold MigrationRunner.pendingMigrations at hm ⊢
  rcases List.mem_filter.mp hm with ⟨hmreg, hcond⟩
  apply List.mem_filter.mpr
  refine ⟨by decide, ?_⟩
  have hle : m.version ≤ 7 :=
    (by decide : ∀ m2 ∈ MigrationRunner.mkNew.migrations, m2.version ≤ 7) m hmreg
  cases hc : MigrationRunner.mkNew.get_current_version db with
  | none => decide
  | some v =>
    rw [hc] at hcond
    dsimp only at hcond ⊢
    have hlt : v < m.version := by simpa [Nat.blt_eq] using hcond
    show Nat.blt v 7 = true
    simp only [Nat.blt_eq]
    omega

theorem run_ok_second_state (w : World) (n : Nat) (w1 : World)
    (h : MigrationRunner.mkNew.run_pending_migrations w = (.ok n, w1)) :
    w1.db.schema.hasTable "schema_migrations" = true ∧
    MigrationRunner.mkNew.pendingMigrations w1.db = [] := by
  unfold MigrationRunner.run_pending_migrations at h
  cases hlc : MigrationRunner.mkNew.legacyCheck w.db with
  | mk lres db0 =>
    rw [hlc] at h
    cases lres with
    | error e => simp at h
    | ok u =>
      dsimp only at h
      cases hq : (MigrationRunner.mkNew.pendingMigrations db0).getLast? with
      | none =>
        rw [hq] at h
        dsimp only at h
        have hw1 : w1 = ⟨db0, w.fs⟩ := by
          have := congrArg Prod.snd h; simpa using this.symm
        subst hw1
        exact ⟨legacyCheck_ok_hasTable _ u _ hlc, List.getLast?_eq_none_iff.mp hq⟩
      | some lastm =>
        rw [hq] at h
        dsimp only at h
        cases hcb : MigrationRunner.mkNew.create_backup w.fs lastm.version with
        | mk bres fs1 =>
          rw [hcb] at h
          cases bres with
          | error e => simp at h
          | ok p =>
            dsimp only at h
            cases hal : MigrationRunner.mkNew.applyLoop
                (MigrationRunner.mkNew.pendingMigrations db0) db0 0 with
            | mk lres2 db1 =>
              rw [hal] at h
              cases lres2 with
              | error e => simp at h
              | ok n2 =>
                dsimp only at h
                have hw1 : w1 = ⟨db1, fs1⟩ := by
                  have := congrArg Prod.snd h; simpa using this.symm
                subst hw1
                rcases applyLoop_ok_facts _ _ db0 0 n2 db1 hal with ⟨hTf, _, hmem⟩
                have ht0 := legacyCheck_ok_hasTable _ u _ hlc
                have ht1 := hTf ht0
                have hm7 := pending_ne_nil_mem_m7 db0 (by
                  intro hnil
                  rw [hnil] at hq
                  simp at hq)
                have hrec7 := hmem _ hm7
                rcases current_version_ge_of_hasRecord db1 7 ht1 hrec7 with ⟨cur, hcur, h7⟩
                exact ⟨ht1, pending_nil_of_ge7 db1 cur hcur h7⟩

/-! ### Theorems -/

/-- C1: the claim says `Database::new` hands the database to the rest of the
application only after the Migration Runner has run, so that every database on
which `Database::new` succeeds holds the `schema_migrations` tracking table at
the highest registry version. Evaluating the embedded `Database::new` on the
failing input — a fresh empty database file — shows initialization succeeds
while the resulting database has no `schema_migrations` table at all (its
"current version" is `none`): the startup path runs only the inline ad-hoc
column migrations of connection.rs and never invokes
`MigrationRunner::run_pending_migrations`. -/
theorem database_new_never_runs_migration_runner :
    (Database.mkNew emptyDb).map (fun d => d.schema.hasTable "schema_migrations") =
      .ok false ∧
    (Database.mkNew emptyDb).map (fun d => MigrationRunner.mkNew.get_current_version d) =
      .ok none := by
  constructor <;> decide

/-- C2 (counterexample): the claim says a startup run
(`run_pending_migrations`) returns a fatal error whenever some applied
record's stored non-null checksum differs from the recomputed registry
checksum. On a fully migrated database whose version-1 record stores the
checksum "tampered" (different from the registry checksum, as
`verify_migrations` itself confirms by failing), `run_pending_migrations`
nevertheless returns `Ok(0)`: the runner never invokes checksum
verification. -/
theorem run_pending_returns_ok_despite_checksum_tamper :
    (MigrationRunner.mkNew.run_pending_migrations ⟨tamperedDb, demoFs⟩).1 = .ok 0 ∧
    MigrationRunner.mkNew.verify_migrations tamperedDb = .error .invalidQuery := by
  constructor <;> decide

/-- C2 (amended): `verify_migrations`, *when invoked*, is fatal on mismatch —
for every database holding a record whose non-null stored checksum differs
from the checksum recomputed from the compiled registry migration of the same
version, it returns the `InvalidQuery` error. (The startup run itself never
invokes it, per the counterexample.) -/
theorem verify_migrations_fatal_on_checksum_mismatch
    (db : DbState) (r : SchemaVersionRecord) (m : Migration) (c : String)
    (hr : r ∈ db.schemaMigrations) (hc : r.checksum = some c)
    (hm : m ∈ MigrationRunner.mkNew.migrations) (hv : m.version = r.version)
    (hne : c ≠ m.checksum) :
    MigrationRunner.mkNew.verify_migrations db = .error .invalidQuery := by
  apply verifyRows_error_of_mismatch
  refine ⟨r, ?_, ?_⟩
  · rw [List.mem_insertionSort]
    exact List.mem_filter.mpr ⟨hr, by simp [hc]⟩
  · have hfind : MigrationRunner.mkNew.migrations.find? (fun m2 => m2.version == r.version) =
        some m := by
      rw [← hv]
      exact find?_version_in_registry m hm
    unfold MigrationRunner.rowMismatch
    rw [hfind]
    dsimp only
    rw [hc]
    simp only [bne_iff_ne, ne_eq, Option.some.injEq]
    exact hne

/-- C2 (witness): the amended mismatch theorem applied to the concrete
tampered database: its version-1 row stores "tampered" while the registry
recomputes a different digest, and verification fails fatally. -/
theorem verify_migrations_fatal_on_checksum_mismatch_witness :
    MigrationRunner.mkNew.verify_migrations tamperedDb = .error .invalidQuery :=
  verify_migrations_fatal_on_checksum_mismatch tamperedDb
    ⟨1, "initial_schema", 0, some "tampered", 0, none⟩
    (Migration.mkNew 1 "initial_schema" .initialSchema) "tampered"
    (by decide) rfl (by decide) rfl (by decide)

/-- C3: applying a single migration is atomic. Whenever the script execution
or the record insert fails, `apply_migration` returns an error and — the
transaction never having been committed — the connection state equals the
pre-call state: the schema is unchanged, the tracking table's maximum version
(`get_current_version`) is the same as before, and no row for the failed
version exists unless it already did. -/
theorem apply_migration_atomic_on_failure (db : DbState) (m : Migration)
    (hfail : (execBatch m.sql db.schema).isOk = false ∨
      ∀ s, execBatch m.sql db.schema = .ok s →
        (DbState.insertRecord { db with schema := s } (appliedRecord m)).isOk = false) :
    (MigrationRunner.mkNew.apply_migration m db).1.isOk = false ∧
    (MigrationRunner.mkNew.apply_migration m db).2 = db ∧
    (MigrationRunner.mkNew.apply_migration m db).2.schema = db.schema ∧
    MigrationRunner.mkNew.get_current_version (MigrationRunner.mkNew.apply_migration m db).2 =
      MigrationRunner.mkNew.get_current_version db ∧
    (db.hasRecord m.version = false →
      (MigrationRunner.mkNew.apply_migration m db).2.hasRecord m.version = false) := by
  simp only [appliedRecord] at hfail
  have hres : (MigrationRunner.mkNew.apply_migration m db).1.isOk = false ∧
      (MigrationRunner.mkNew.apply_migration m db).2 = db := by
    unfold MigrationRunner.apply_migration
    cases hb : execBatch m.sql db.schema with
    | error e => exact ⟨rfl, rfl⟩
    | ok s =>
      dsimp only
      rcases hfail with hfail | hfail
      · rw [hb] at hfail; simp [Except.isOk, Except.toBool] at hfail
      · have hins := hfail s hb
        cases hi : DbState.insertRecord { db with schema := s }
            ⟨m.version, m.name, current_timestamp, some m.checksum, 0, none⟩ with
        | error e => exact ⟨rfl, rfl⟩
        | ok db2 => rw [hi] at hins; simp [Except.isOk, Except.toBool] at hins
  refine ⟨hres.1, hres.2, ?_, ?_, ?_⟩ <;> rw [hres.2]
  exact fun h => h

/-- C3 (witness): the atomicity theorem applied to a migration whose script
fails on a tracked version-0 database: the call errors and the state —
schema, current version, absence of a version-3 row — is unchanged. -/
theorem apply_migration_atomic_on_failure_witness :
    ((MigrationRunner.mkNew.apply_migration (Migration.mkNew 3 "bad_migration" .invalid)
        trackedV0Db).1.isOk = false ∧
      (MigrationRunner.mkNew.apply_migration (Migration.mkNew 3 "bad_migration" .invalid)
        trackedV0Db).2 = trackedV0Db) := by
  have h := apply_migration_atomic_on_failure trackedV0Db
    (Migration.mkNew 3 "bad_migration" .invalid) (Or.inl (by decide))
  exact ⟨h.1, h.2.1⟩

/-- C4 (counterexample): the claim says that on every backup failure the run
returns a fatal error *and no schema mutation has occurred*. On a legacy
version-1 database (no tracking table) with a filesystem on which backup
directory creation fails, the run does return a fatal error — but the schema
*has* been mutated before the backup was ever attempted: the legacy bootstrap
created the `schema_migrations` table first. -/
theorem backup_failure_after_legacy_bootstrap_mutates_schema :
    (MigrationRunner.mkNew.run_pending_migrations ⟨legacyV1Db, mkdirFailFs⟩).1 =
      .error .sqliteFailure ∧
    legacyV1Db.schema.hasTable "schema_migrations" = false ∧
    (MigrationRunner.mkNew.run_pending_migrations
        ⟨legacyV1Db, mkdirFailFs⟩).2.db.schema.hasTable "schema_migrations" = true := by
  refine ⟨by decide, by decide, by decide⟩

/-- C6 (counterexample): the claim says `detect_legacy_version` returns 0
when the primary data table (`trades`) is absent. On a database with no
`trades` table whose `api_credentials` table carries the `auto_sync_enabled`
marker column, detection returns 4, not 0: the detector also probes
`api_credentials` markers, which rank above the `trades`-existence check. -/
theorem detect_legacy_nonzero_without_trades_table :
    MigrationRunner.mkNew.has_trades_table noTradesDb = false ∧
    MigrationRunner.mkNew.detect_legacy_version noTradesDb = 4 := by
  constructor <;> decide

/-- C8: the compiled registry's versions are exactly the contiguous sequence
0..7 in order (`registry[i].version == i`), and version 0 is the bootstrap
migration whose script creates the `schema_migrations` tracking table. -/
theorem registry_versions_sequential_from_zero :
    collect_migrations.map (fun m => m.version) = [0, 1, 2, 3, 4, 5, 6, 7] ∧
    (∀ i : Fin collect_migrations.length, (collect_migrations.get i).version = i.val) ∧
    (collect_migrations.get? 0).map (fun m => m.sql) = some Sql.bootstrap ∧
    (execBatch Sql.bootstrap ⟨[]⟩).map (fun s => s.hasTable "schema_migrations") =
      .ok true := by
  refine ⟨by decide, by decide, by decide, by decide⟩

/-- C10: the verifier silently skips tracking rows whose version has no
corresponding migration in the compiled registry. First part: a database all
of whose checksummed rows are at versions unknown to this build verifies as
`Ok`. Second part: any verification error exhibits a row whose version *does*
match a compiled migration and whose stored checksum differs from the
recomputed one — unknown-version rows alone can never cause an error. -/
theorem verify_skips_versions_unknown_to_registry :
    (∀ db : DbState,
      (∀ r ∈ db.schemaMigrations, r.checksum.isSome = true →
        MigrationRunner.mkNew.migrations.find? (fun m => m.version == r.version) = none) →
      MigrationRunner.mkNew.verify_migrations db = .ok ()) ∧
    (∀ (db : DbState) (e : DbError),
      MigrationRunner.mkNew.verify_migrations db = .error e →
      ∃ r ∈ db.schemaMigrations, ∃ m ∈ MigrationRunner.mkNew.migrations,
        m.version = r.version ∧ r.checksum.isSome = true ∧ r.checksum ≠ some m.checksum) := by
  constructor
  · intro db h
    apply verifyRows_ok_of_no_mismatch
    intro r hrl
    rw [List.mem_insertionSort] at hrl
    rcases List.mem_filter.mp hrl with ⟨hrm, hrs⟩
    simp only [MigrationRunner.rowMismatch, h r hrm hrs]
  · intro db e herr
    rcases verifyRows_mismatch_of_error _ _ _ herr with ⟨r, hrl, hmx⟩
    rw [List.mem_insertionSort] at hrl
    rcases List.mem_filter.mp hrl with ⟨hrm, hrs⟩
    simp only [MigrationRunner.rowMismatch] at hmx
    cases hf : MigrationRunner.mkNew.migrations.find? (fun m => m.version == r.version) with
    | none => rw [hf] at hmx; simp at hmx
    | some m =>
      rw [hf] at hmx
      refine ⟨r, hrm, m, List.mem_of_find?_eq_some hf, ?_, hrs, ?_⟩
      · have hbeq := List.find?_some hf
        exact beq_iff_eq.mp hbeq
      · simpa [bne_iff_ne] using hmx

/-- C10 (witness): a database whose only checksummed row sits at version 99 —
unknown to this build — verifies as `Ok`, by the first part of the skipping
theorem. -/
theorem verify_skips_versions_unknown_to_registry_witness :
    MigrationRunner.mkNew.verify_migrations unknownVersionDb = .ok () :=
  verify_skips_versions_unknown_to_registry.1 unknownVersionDb (by decide)

/-- C6 (amended): `detect_legacy_version` is a total function of the database
(the embedding's introspection queries cannot fail), and it returns 0 exactly
when *no structural marker matches* — absence of `trades` alone is not
sufficient, since the `api_credentials` marker columns are probed as well
(per the counterexample). For every `k` in 1..=7, the database built by
applying only the raw DDL of migrations 1..=k (no tracking table) is detected
as legacy version exactly `k`. -/
theorem detect_legacy_version_total_and_correct :
    (∀ db : DbState,
      db.schema.columnHolds "trades" "execution_portfolio" = false →
      db.schema.columnHolds "trades" "deleted_at" = false →
      db.schema.columnHolds "api_credentials" "live_mirror_enabled" = false →
      db.schema.columnHolds "api_credentials" "auto_sync_enabled" = false →
      db.schema.columnHolds "trades" "import_source" = false →
      db.schema.columnHolds "trades" "planned_entries" = false →
      db.schema.hasTable "trades" = false →
      MigrationRunner.mkNew.detect_legacy_version db = 0) ∧
    (∀ k : Fin 8, 1 ≤ k.val → rawLegacyDetect k.val = .ok k.val) := by
  constructor
  · intro db h7 h6 h5 h4 h3 h2 h1
    unfold MigrationRunner.detect_legacy_version MigrationRunner.column_holds
      MigrationRunner.has_trades_table
    rw [h7, h6, h5, h4, h3, h2, h1]
    simp
  · intro k hk
    fin_cases k <;> revert hk <;> decide

/-- C6 (witness): the detector applied to a completely empty database
returns 0, and the raw-DDL fixture for k = 5 is detected as version 5. -/
theorem detect_legacy_version_total_and_correct_witness :
    MigrationRunner.mkNew.detect_legacy_version emptyDb = 0 ∧
    rawLegacyDetect 5 = .ok 5 := by
  refine ⟨detect_legacy_version_total_and_correct.1 emptyDb (by decide) (by decide) (by decide)
    (by decide) (by decide) (by decide) (by decide), ?_⟩
  exact detect_legacy_version_total_and_correct.2 ⟨5, by decide⟩ (by decide)

/-- C7: bootstrapping a legacy database detected at structural version `k`
applies the version-0 migration for real — creating the tracking table and a
version-0 record carrying the real bootstrap checksum — then inserts exactly
one retroactive record per version in 1..=k, each with a NULL checksum and
the notes marker "Legacy migration - detected via introspection"; the
verifier accepts the bootstrapped database, exempting the NULL-checksum rows
from comparison. -/
theorem bootstrap_legacy_inserts_exempt_records (db : DbState)
    (htab : db.schema.hasTable "schema_migrations" = false)
    (hrec : db.schemaMigrations = [])
    (hint : db.integrityOk = true) :
    MigrationRunner.mkNew.bootstrap_legacy_schema db = (.ok (), bootstrappedDb db) ∧
    MigrationRunner.mkNew.verify_migrations (bootstrappedDb db) = .ok () := by
  have hexec : execBatch Sql.bootstrap db.schema =
      .ok ⟨db.schema.tables ++ [("schema_migrations", schemaMigrationsCols)]⟩ := by
    unfold execBatch Schema.createTable
    rw [if_neg (by simp [htab])]
  have htab1 : (Schema.mk
      (db.schema.tables ++ [("schema_migrations", schemaMigrationsCols)])).hasTable
      "schema_migrations" = true := by
    simp [Schema.hasTable, List.any_append]
  have happly : MigrationRunner.mkNew.apply_migration
      (Migration.mkNew 0 "bootstrap" Sql.bootstrap) db =
      (.ok (), { db with
        schema := ⟨db.schema.tables ++ [("schema_migrations", schemaMigrationsCols)]⟩,
        schemaMigrations := [bootstrapRecord] }) := by
    unfold MigrationRunner.apply_migration
    rw [show (Migration.mkNew 0 "bootstrap" Sql.bootstrap).sql = Sql.bootstrap from rfl, hexec]
    dsimp only
    have hins := insertRecord_ok
      { db with schema := ⟨db.schema.tables ++ [("schema_migrations", schemaMigrationsCols)]⟩ }
      bootstrapRecord htab1 (by simp [DbState.hasRecord, hrec])
    simp only [bootstrapRecord] at hins
    rw [show (Migration.mkNew 0 "bootstrap" Sql.bootstrap).checksum = sqlSha256 .bootstrap from rfl]
    rw [show (Migration.mkNew 0 "bootstrap" Sql.bootstrap).version = 0 from rfl,
      show (Migration.mkNew 0 "bootstrap" Sql.bootstrap).name = "bootstrap" from rfl]
    rw [hins]
    simp [hrec, bootstrapRecord]
  have hloop := retroInsertLoop_ok MigrationRunner.mkNew
    (List.range' 1 (MigrationRunner.mkNew.detect_legacy_version db))
    { db with
      schema := ⟨db.schema.tables ++ [("schema_migrations", schemaMigrationsCols)]⟩,
      schemaMigrations := [bootstrapRecord] }
    htab1
    (by
      intro v hv
      rcases List.mem_range'.mp hv with ⟨i, hilt, rfl⟩
      simp only [DbState.hasRecord, bootstrapRecord]
      simp
      omega)
    (List.nodup_range' _ _)
  have hmain : MigrationRunner.mkNew.bootstrap_legacy_schema db = (.ok (), bootstrappedDb db) := by
    unfold MigrationRunner.bootstrap_legacy_schema
    rw [show (MigrationRunner.mkNew.migrations.get? 0).getD (Migration.mkNew 0 "" .invalid) =
      Migration.mkNew 0 "bootstrap" Sql.bootstrap from rfl]
    rw [happly]
    dsimp only
    rw [hloop]
    dsimp only
    unfold MigrationRunner.validate_schema_integrity
    rw [if_neg (by simp [hint])]
    unfold bootstrappedDb
    rw [show retroRecordOf MigrationRunner.mkNew = legacyRecord from rfl]
    simp [bootstrapRecord]
  refine ⟨hmain, ?_⟩
  have hfilter : ((bootstrappedDb db).schemaMigrations.filter (fun r => r.checksum.isSome)) =
      [bootstrapRecord] := by
    unfold bootstrappedDb
    dsimp only
    rw [List.filter_cons_of_pos (by decide)]
    have hnilf : (List.filter (fun r => r.checksum.isSome)
        ((List.range' 1 (MigrationRunner.mkNew.detect_legacy_version db)).map legacyRecord)) =
        [] := by
      rw [List.filter_eq_nil_iff]
      intro a ha
      rcases List.mem_map.mp ha with ⟨v, hv, rfl⟩
      simp [legacyRecord]
    rw [hnilf]
  unfold MigrationRunner.verify_migrations
  rw [hfilter]
  decide

/-- C7 (witness): the bootstrap theorem applied to the concrete legacy
version-1 database: the run succeeds, producing the tracking table with the
real version-0 record plus one NULL-checksum retroactive record, and the
verifier accepts the result. -/
theorem bootstrap_legacy_inserts_exempt_records_witness :
    MigrationRunner.mkNew.bootstrap_legacy_schema legacyV1Db =
      (.ok (), bootstrappedDb legacyV1Db) ∧
    MigrationRunner.mkNew.verify_migrations (bootstrappedDb legacyV1Db) = .ok () :=
  bootstrap_legacy_inserts_exempt_records legacyV1Db (by decide) rfl rfl

/-- C4 (amended): on a database that already has the tracking table, whenever
the pending set is non-empty and any of the four backup steps fails
(directory creation, the hot-backup copy, the empty-file check, or the
snapshot integrity check), the whole run returns a fatal error and the
database state — schema and records both — is exactly the pre-call state: no
schema mutation has occurred. (On a *legacy* database the claim as stated is
false: the bootstrap mutates the schema before the backup is attempted, per
the counterexample.) -/
theorem backup_failure_aborts_run_on_tracked_db (w : World)
    (htab : MigrationRunner.mkNew.has_schema_migrations_table w.db = true)
    (hpend : MigrationRunner.mkNew.pendingMigrations w.db ≠ [])
    (hfail : w.fs.mkdirOk = false ∨ w.fs.copyOk = false ∨ w.fs.snapshotSize = 0 ∨
      w.fs.snapshotIntegrityOk = false) :
    (MigrationRunner.mkNew.run_pending_migrations w).1.isOk = false ∧
    (MigrationRunner.mkNew.run_pending_migrations w).2.db = w.db := by
  unfold MigrationRunner.run_pending_migrations MigrationRunner.legacyCheck
  rw [if_neg (by simp [htab])]
  dsimp only
  cases hq : (MigrationRunner.mkNew.pendingMigrations w.db).getLast? with
  | none => exact absurd (List.getLast?_eq_none_iff.mp hq) hpend
  | some lastm =>
    dsimp only
    have hcbf := create_backup_fails w.fs lastm.version hfail
    cases hcb : MigrationRunner.mkNew.create_backup w.fs lastm.version with
    | mk res fs1 =>
      cases res with
      | error e => exact ⟨rfl, rfl⟩
      | ok p =>
        rw [hcb] at hcbf
        simp [Except.isOk, Except.toBool] at hcbf

/-- C4 (witness): the amended theorem applied to a tracked version-0 database
with a filesystem on which backup-directory creation fails: the run errors
and the database is untouched. -/
theorem backup_failure_aborts_run_on_tracked_db_witness :
    (MigrationRunner.mkNew.run_pending_migrations ⟨trackedV0Db, mkdirFailFs⟩).1.isOk = false ∧
    (MigrationRunner.mkNew.run_pending_migrations ⟨trackedV0Db, mkdirFailFs⟩).2.db =
      trackedV0Db :=
  backup_failure_aborts_run_on_tracked_db ⟨trackedV0Db, mkdirFailFs⟩
    (by decide) (by decide) (Or.inl rfl)

/-- C9: backup naming and retention. (1) Every successful backup is written
to `<db-directory>/backups/pre_migration_v<target_version>_<unix_timestamp>.db`.
(2) A run whose pending set is empty returns Ok(0) and leaves the filesystem
untouched: backups are created only for runs with pending work. (3) The
target version used for the backup name (the last element of the pending
list) is the highest pending migration version. (4) After pruning — which
sorts the files matching the snapshot naming pattern by modification time
ascending — at most 5 matching backup files remain, and every remaining
matching file is at least as recent as every pruned one. -/
theorem backup_naming_and_retention :
    (∀ (fs : Fs) (target : Nat) (dir p : String) (fs1 : Fs),
      fs.dbDir = some dir →
      MigrationRunner.mkNew.create_backup fs target = (.ok p, fs1) →
      p = dir ++ "/backups/" ++
        ("pre_migration_v" ++ toString target ++ "_" ++ toString current_timestamp ++ ".db")) ∧
    (∀ (w : World) (db0 : DbState),
      MigrationRunner.mkNew.legacyCheck w.db = (.ok (), db0) →
      MigrationRunner.mkNew.pendingMigrations db0 = [] →
      MigrationRunner.mkNew.run_pending_migrations w = (.ok 0, ⟨db0, w.fs⟩)) ∧
    (∀ (db : DbState) (m : Migration),
      (MigrationRunner.mkNew.pendingMigrations db).getLast? = some m →
      ∀ m2 ∈ MigrationRunner.mkNew.pendingMigrations db, m2.version ≤ m.version) ∧
    (∀ fs fs1 : Fs, cleanup_old_backups fs = (.ok (), fs1) →
      (fs1.backupFiles.filter isBackupPattern).length ≤ 5 ∧
      ∀ g ∈ fs.backupFiles.filter isBackupPattern,
        g ∉ fs1.backupFiles.filter isBackupPattern →
        ∀ f ∈ fs1.backupFiles.filter isBackupPattern, g.mtime ≤ f.mtime) :=
  ⟨fun fs target dir p fs1 hd hcb => create_backup_path fs target dir p fs1 hd hcb,
   fun w db0 hlc hp => run_with_no_pending w db0 hlc hp,
   fun db m hq => pending_getLast_version_max db m hq,
   fun fs fs1 hcl => cleanup_retention fs fs1 hcl⟩

/-- C9 (witness): on the healthy demo filesystem the produced snapshot path
is exactly `/data/backups/pre_migration_v7_<timestamp>.db`, and pruning a
directory holding seven matching snapshots leaves at most 5 of them. -/
theorem backup_naming_and_retention_witness :
    demoBackupPath = "/data" ++ "/backups/" ++
      ("pre_migration_v" ++ toString 7 ++ "_" ++ toString current_timestamp ++ ".db") ∧
    (((cleanup_old_backups crowdedFs).2.backupFiles.filter isBackupPattern).length ≤ 5) :=
  ⟨backup_naming_and_retention.1 demoFs 7 "/data" demoBackupPath
      (MigrationRunner.mkNew.create_backup demoFs 7).2 rfl (by decide),
   (backup_naming_and_retention.2.2.2 crowdedFs (cleanup_old_backups crowdedFs).2
      (by decide)).1⟩

/-- C5: idempotency of the Runner. Whenever a startup run returns Ok (having
applied all pending migrations), immediately running `run_pending_migrations`
again on the resulting state applies exactly 0 migrations — it returns
`Ok(0)` — and leaves the entire state (database and filesystem) unchanged. -/
theorem runner_idempotent_second_run_applies_zero (w : World) (n : Nat) (w1 : World)
    (h : MigrationRunner.mkNew.run_pending_migrations w = (.ok n, w1)) :
    MigrationRunner.mkNew.run_pending_migrations w1 = (.ok 0, w1) := by
  obtain ⟨ht, hp⟩ := run_ok_second_state w n w1 h
  have hlc : MigrationRunner.mkNew.legacyCheck w1.db = (.ok (), w1.db) := by
    unfold MigrationRunner.legacyCheck
    rw [if_neg (by simp [MigrationRunner.has_schema_migrations_table, ht])]
  exact run_with_no_pending w1 w1.db hlc hp

/-- C5 (witness): on a fresh database the first run applies 7 migrations;
the idempotency theorem applied to that concrete run shows the second run
returns Ok(0) with the state unchanged. -/
theorem runner_idempotent_second_run_applies_zero_witness :
    MigrationRunner.mkNew.run_pending_migrations demoSecondWorld = (.ok 0, demoSecondWorld) :=
  runner_idempotent_second_run_applies_zero demoWorld 7 demoSecondWorld (by decide)

end TradingJournal
